import Mathlib

/-
Verification of the line-classification state machine, hunk-buffering
protocol and diff-metadata micro-parsers of src/parse.rs.

Rust strings are modelled as their character sequences (Str = List Char).
Byte-sensitive operations (slicing such as the source's two-byte path
slice, which panics off a character boundary) are modelled explicitly via
Char.utf8Size; an operation that can panic returns an Option whose none
value models the panic.
-/

set_option maxRecDepth 4000

namespace Delta

/-- Rust strings, modelled as their character sequences. -/
abbrev Str := List Char

/-- Byte length of a UTF-8 string, as returned by Rust str len. -/
def byteLen (s : Str) : Nat := (s.map Char.utf8Size).sum

/-- Rust byte slicing of the form s-bracket-n-dotdot: drop the first n bytes.
Returns none (modelling the panic) when n exceeds the byte length or does not
fall on a character boundary. -/
def byteDrop : Nat → Str → Option Str
  | 0, s => some s
  | _ + 1, [] => none
  | n + 1, c :: rest =>
      if c.utf8Size ≤ n + 1 then byteDrop (n + 1 - c.utf8Size) rest else none

/-- Rust str split with a one-character pattern: the list of (possibly empty)
tokens between occurrences of the separator. -/
def splitCh (sep : Char) : Str → List Str
  | [] => [[]]
  | c :: rest =>
      if c = sep then [] :: splitCh sep rest
      else
        match splitCh sep rest with
        | [] => [[c]]
        | t :: ts => (c :: t) :: ts

/-- Rust str split with a two-character pattern (such as the hunk-header
marker), matching non-overlapping occurrences left to right. -/
def splitSeq2 (a b : Char) : Str → List Str
  | [] => [[]]
  | [c] => [[c]]
  | c1 :: c2 :: rest =>
      if c1 = a ∧ c2 = b then [] :: splitSeq2 a b rest
      else
        match splitSeq2 a b (c2 :: rest) with
        | [] => [[c1]]
        | t :: ts => (c1 :: t) :: ts

/-- Lift the source's slice of the first two bytes off an optional token:
the outer none models the panic of the slice, the inner option is the
absent-token case of the iterator. -/
def sliceTail2 : Option Str → Option (Option Str)
  | none => some none
  | some s => (byteDrop 2 s).map some

/-- Path file-name lookup of the Rust standard library for the Unix paths
occurring here: the last path component, unless it is a parent-directory
component; empty and current-directory components are not components. -/
def fileName (s : Str) : Option Str :=
  let comps := (splitCh '/' s).filter fun t => !(t == [] || t == ['.'])
  match comps.getLast? with
  | none => none
  | some t => if t = ['.', '.'] then none else some t

/-- Path extension lookup of the Rust standard library: the portion of the
file name after its last dot, none when there is no file name, no dot, or
the only dot is the leading one of a hidden file. -/
def pathExtension (s : Str) : Option Str :=
  match fileName s with
  | none => none
  | some f =>
      if f = ['.', '.'] then none
      else
        match splitCh '.' f with
        | [] => none
        | [_] => none
        | [t, afterLast] => if t = [] then none else some afterLast
        | _ :: ts => ts.getLast?

/-- Source function get_extension: attempt to parse input as a file path and
return its extension, falling back to the full file name (so that a file
such as a Makefile is matched by its name). -/
def get_extension (s : Str) : Option Str :=
  match pathExtension s with
  | some e => some e
  | none => fileName s

/-- Source function get_file_paths_from_diff_line: the third and fourth
space-separated tokens of the line, each with its first two bytes sliced
off.  The outer none models the panic of that slice on a token shorter
than two bytes (or cut off a character boundary). -/
def get_file_paths_from_diff_line (line : Str) : Option (Option Str × Option Str) := do
  let parts := splitCh ' ' line
  let p1 ← sliceTail2 parts[2]?
  let p2 ← sliceTail2 parts[3]?
  pure (p1, p2)

/-- Source function get_file_extensions_from_diff_line: like the path pair,
but each sliced token is further run through get_extension. -/
def get_file_extensions_from_diff_line (line : Str) : Option (Option Str × Option Str) := do
  let parts := splitCh ' ' line
  let p1 ← sliceTail2 parts[2]?
  let p2 ← sliceTail2 parts[3]?
  pure (p1.bind get_extension, p2.bind get_extension)

/-- Source function get_file_extension_from_diff_line: a single extension
consistent with both files, none when both are absent or they disagree.
The outer none models a panic while parsing the line. -/
def get_file_extension_from_diff_line (line : Str) : Option (Option Str) :=
  (get_file_extensions_from_diff_line line).map fun
    | (some ext1, some ext2) => if ext1 = ext2 then some ext1 else none
    | (some ext1, none) => some ext1
    | (none, some ext2) => some ext2
    | (none, none) => none

/-- The null-device sentinel path. -/
def devnull : Str := ("/dev/null").data

/-- Source function get_file_change_description_from_diff_line.  Note the
renamed arm of the source format string carries one space before the long
rightwards arrow and two spaces after it.  The outer none models a panic
while parsing the line. -/
def get_file_change_description_from_diff_line (line : Str) : Option Str :=
  (get_file_paths_from_diff_line line).map fun
    | (some file1, some file2) =>
        if file1 = file2 then file1
        else if file2 = devnull then ("deleted: ").data ++ file1
        else if file1 = devnull then ("added: ").data ++ file2
        else ("renamed: ").data ++ file1 ++ (" ⟶  ").data ++ file2
    | _ => ("?").data

/-- Source function parse_hunk_metadata: split on the two-at-sign marker;
the line number is the piece of the second segment between the first plus
sign and the following comma, the code fragment is the third segment;
missing pieces default to the empty string. -/
def parse_hunk_metadata (line : Str) : Str × Str :=
  let parts := splitSeq2 '@' '@' line
  let line_number :=
    match parts[1]? with
    | none => []
    | some s =>
        match (splitCh '+' s)[1]? with
        | none => []
        | some t => (splitCh ',' t).headD []
  ((parts[2]?).getD [], line_number)

/-- Right-pad a line with spaces to the configured width, when one is
configured and the line's byte length falls short of it. -/
def padToWidth (width : Option Nat) (line : Str) : Str :=
  match width with
  | some w => if byteLen line < w then line ++ List.replicate (w - byteLen line) ' ' else line
  | none => line

/-- Source function prepare: replace the initial marker byte with a space
(the source slices off the first byte, so none models its panic when the
first character is wider than one byte), leave an empty line empty, then
pad to the configured width. -/
def prepare (line : Str) (width : Option Nat) : Option Str := do
  let base ← match line with
    | [] => some ([] : Str)
    | _ => (byteDrop 1 line).map (fun t => ' ' :: t)
  pure (padToWidth width base)

/-- The classification states of the source State enumeration. -/
inductive State
  | CommitMeta
  | FileMeta
  | HunkMeta
  | HunkZero
  | HunkMinus
  | HunkPlus
  | Unknown
deriving DecidableEq

/-- Source method State is_in_hunk. -/
def State.is_in_hunk : State → Bool
  | .HunkMeta | .HunkZero | .HunkMinus | .HunkPlus => true
  | _ => false

/-- The per-region drawing styles of the command-line options. -/
inductive SectionStyle
  | Box
  | Underline
  | Plain
deriving DecidableEq

/-- The configuration surface consumed by the driver: one style per region
and an optional fixed output width. -/
structure Config where
  commit_style : SectionStyle
  file_style : SectionStyle
  hunk_style : SectionStyle
  width : Option Nat

/-- Observable output of one invocation, at the granularity the painter and
drawing collaborators are called: rendered header blocks, painted line
groups, and verbatim passthrough lines. -/
inductive Event
  | commitHeader (raw : Str)
  | fileHeader (description : Str)
  | hunkHeader (code_fragment line_number : Str)
  | paintPaired (minus plus : List Str)
  | paintBlock (lines : List Str)
  | paintLine (line : Str)
  | passthrough (raw : Str)
deriving DecidableEq

/-- Modelled from the spec: the painter's buffered-line flush (method
paint_buffered_lines, whose body lives outside src).  Per the spec, when
both pending sequences are non-empty they are handed to the painter as one
paired batch, when only one is non-empty it is handed alone, and flushing
an empty buffer is a no-op; afterwards both sequences are cleared by the
caller of this event list. -/
def flushEvents (minus plus : List Str) : List Event :=
  if minus = [] ∧ plus = [] then []
  else if minus ≠ [] ∧ plus ≠ [] then [Event.paintPaired minus plus]
  else [Event.paintBlock (minus ++ plus)]

/-- The mutable state of one delta invocation: the classification state,
the selected highlighting context (present or absent) and the two pending
line sequences of the painter's hunk buffer. -/
structure DeltaState where
  state : State
  synCtx : Option Unit
  minus_lines : List Str
  plus_lines : List Str
deriving DecidableEq

/-- Initial driver state of the source delta function. -/
def initState : DeltaState := ⟨State.Unknown, none, [], []⟩

/-- Source function paint_hunk_line, acting on a line already stripped of
escape sequences while the state is in-hunk and a highlighting context is
selected.  Returns none when prepare panics. -/
def paint_hunk_line (cfg : Config) (st : DeltaState) (line : Str) :
    Option (DeltaState × List Event) :=
  if line.head? = some '-' then
    let fp : List Event × List Str × List Str :=
      if st.state = State.HunkPlus then (flushEvents st.minus_lines st.plus_lines, [], [])
      else ([], st.minus_lines, st.plus_lines)
    match prepare line cfg.width with
    | none => none
    | some pl =>
        some (⟨State.HunkMinus, st.synCtx, fp.2.1 ++ [pl], fp.2.2⟩, fp.1)
  else if line.head? = some '+' then
    match prepare line cfg.width with
    | none => none
    | some pl =>
        some (⟨State.HunkPlus, st.synCtx, st.minus_lines, st.plus_lines ++ [pl]⟩, [])
  else
    let evs := flushEvents st.minus_lines st.plus_lines
    match prepare line cfg.width with
    | none => none
    | some pl =>
        some (⟨State.HunkZero, st.synCtx, [], []⟩, evs ++ [Event.paintLine pl])

/-- One iteration of the delta line loop.  The find_ctx parameter stands
for the external highlighting-context lookup by extension, strip for the
external escape-sequence stripper; branch conditions and metadata parsing
use the stripped line while passthrough and the commit/file headers use
the raw line, exactly as in the source.  Returns none when the iteration
panics. -/
def step (cfg : Config) (find_ctx : Str → Option Unit) (strip : Str → Str)
    (st : DeltaState) (raw : Str) : Option (DeltaState × List Event) :=
  let line := strip raw
  if (("commit").data).isPrefixOf line then
    let evs := flushEvents st.minus_lines st.plus_lines
    let st1 : DeltaState := ⟨State.CommitMeta, st.synCtx, [], []⟩
    if cfg.commit_style ≠ SectionStyle.Plain then
      some (st1, evs ++ [Event.commitHeader raw])
    else
      some (st1, evs ++ [Event.passthrough raw])
  else if (("diff --").data).isPrefixOf line then
    let evs := flushEvents st.minus_lines st.plus_lines
    match get_file_extension_from_diff_line line with
    | none => none
    | some extOpt =>
        let ctx : Option Unit :=
          match extOpt with
          | some e => find_ctx e
          | none => none
        let st1 : DeltaState := ⟨State.FileMeta, ctx, [], []⟩
        if cfg.file_style ≠ SectionStyle.Plain then
          match get_file_change_description_from_diff_line raw with
          | none => none
          | some d => some (st1, evs ++ [Event.fileHeader d])
        else
          some (st1, evs ++ [Event.passthrough raw])
  else if (("@@").data).isPrefixOf line then
    let st1 : DeltaState := ⟨State.HunkMeta, st.synCtx, st.minus_lines, st.plus_lines⟩
    if cfg.hunk_style ≠ SectionStyle.Plain then
      let md := parse_hunk_metadata line
      some (st1, [Event.hunkHeader md.1 md.2])
    else
      some (st1, [Event.passthrough raw])
  else if st.state.is_in_hunk && st.synCtx.isSome then
    paint_hunk_line cfg st line
  else if st.state = State.FileMeta ∧ cfg.file_style ≠ SectionStyle.Plain then
    some (st, [])
  else
    some (st, [Event.passthrough raw])

/-- Run the delta loop over a list of input lines from a given state,
collecting the emitted events; none models a panic at some line. -/
def processLines (cfg : Config) (find_ctx : Str → Option Unit) (strip : Str → Str) :
    DeltaState → List Str → Option (DeltaState × List Event)
  | st, [] => some (st, [])
  | st, l :: ls =>
      match step cfg find_ctx strip st l with
      | none => none
      | some r1 =>
          match processLines cfg find_ctx strip r1.1 ls with
          | none => none
          | some r2 => some (r2.1, r1.2 ++ r2.2)

/-- Source function delta on a finite input: run the loop from the initial
state, then flush whatever is still buffered, as the source does after the
loop before returning Ok. -/
def runDelta (cfg : Config) (find_ctx : Str → Option Unit) (strip : Str → Str)
    (lines : List Str) : Option (DeltaState × List Event) :=
  match processLines cfg find_ctx strip initState lines with
  | none => none
  | some r =>
      some (⟨r.1.state, r.1.synCtx, [], []⟩,
        r.2 ++ flushEvents r.1.minus_lines r.1.plus_lines)

/-- Run paint_hunk_line over a run of consecutive hunk-body lines. -/
def paintHunkLines (cfg : Config) : DeltaState → List Str → Option (DeltaState × List Event)
  | st, [] => some (st, [])
  | st, l :: ls =>
      match paint_hunk_line cfg st l with
      | none => none
      | some r1 =>
          match paintHunkLines cfg r1.1 ls with
          | none => none
          | some r2 => some (r2.1, r1.2 ++ r2.2)

/-- The marker-replacement part of prepare, for stating its contract: the
first character of a non-empty line becomes a space. -/
def markerReplaced : Str → Str
  | [] => []
  | _ :: t => ' ' :: t

/-- The line-number extraction of parse_hunk_metadata, applied to the
segment between the first two hunk markers, for stating its contract. -/
def hunkLineNumber (s : Str) : Str :=
  match (splitCh '+' s)[1]? with
  | none => []
  | some t => (splitCh ',' t).headD []

/-- Specification of one loop iteration, for the suppression claim: a line
is fully suppressed (no event, buffer untouched) exactly when it matches
no header prefix, is not a paintable hunk-body line, the state is FileMeta
and the file style is not Plain; and otherwise the iteration's events are
a flush of the previously buffered lines followed by this line's own
production: one header block, one painted line, one verbatim passthrough
of the raw line, or nothing but the prepared line appended to the buffer
for a later paired flush. -/
def stepSpec (cfg : Config) (strip : Str → Str) (st : DeltaState) (raw : Str)
    (st' : DeltaState) (evs : List Event) : Prop :=
  ((evs = [] ∧ st'.minus_lines = st.minus_lines ∧ st'.plus_lines = st.plus_lines)
    ↔ (¬ (("commit").data).isPrefixOf (strip raw) = true
        ∧ ¬ (("diff --").data).isPrefixOf (strip raw) = true
        ∧ ¬ (("@@").data).isPrefixOf (strip raw) = true
        ∧ ¬ (st.state.is_in_hunk = true ∧ st.synCtx.isSome = true)
        ∧ st.state = State.FileMeta ∧ cfg.file_style ≠ SectionStyle.Plain))
  ∧ ∃ fl own, evs = fl ++ own
      ∧ (fl = [] ∨ fl = flushEvents st.minus_lines st.plus_lines)
      ∧ (own = [Event.commitHeader raw]
         ∨ (∃ d, own = [Event.fileHeader d])
         ∨ (∃ cf ln, own = [Event.hunkHeader cf ln])
         ∨ (∃ l, own = [Event.paintLine l])
         ∨ own = [Event.passthrough raw]
         ∨ (own = [] ∧ ∃ pl, prepare (strip raw) cfg.width = some pl
             ∧ (st'.minus_lines.getLast? = some pl ∨ st'.plus_lines.getLast? = some pl))
         ∨ (own = [] ∧ fl = [] ∧ st'.minus_lines = st.minus_lines
             ∧ st'.plus_lines = st.plus_lines))

lemma splitCh_cons (sep c : Char) (rest : Str) :
    splitCh sep (c :: rest) =
      if c = sep then [] :: splitCh sep rest
      else
        match splitCh sep rest with
        | [] => [[c]]
        | t :: ts => (c :: t) :: ts := rfl

lemma splitSeq2_cons₂ (a b c1 c2 : Char) (rest : Str) :
    splitSeq2 a b (c1 :: c2 :: rest) =
      if c1 = a ∧ c2 = b then [] :: splitSeq2 a b rest
      else
        match splitSeq2 a b (c2 :: rest) with
        | [] => [[c1]]
        | t :: ts => (c1 :: t) :: ts := rfl

lemma splitCh_ne_nil (sep : Char) (s : Str) : splitCh sep s ≠ [] := by
  induction s with
  | nil => simp [splitCh]
  | cons c rest ih =>
      simp only [splitCh]
      split
      · simp
      · rcases h : splitCh sep rest with _ | ⟨t, ts⟩
        · exact absurd h ih
        · simp [h]

lemma splitCh_no_sep {sep : Char} {s : Str} (h : sep ∉ s) : splitCh sep s = [s] := by
  induction s with
  | nil => simp [splitCh]
  | cons c rest ih =>
      have hc : c ≠ sep := fun hcs => h (by simp [hcs])
      have hrest : sep ∉ rest := fun hm => h (by simp [hm])
      simp [splitCh, hc, ih hrest]

lemma splitCh_append (sep : Char) (a b : Str) :
    splitCh sep (a ++ sep :: b) = splitCh sep a ++ splitCh sep b := by
  induction a with
  | nil => simp [splitCh]
  | cons c rest ih =>
      by_cases hc : c = sep
      · simp [splitCh, hc, ih]
      · rw [List.cons_append]
        rw [splitCh_cons, if_neg hc, ih]
        conv_rhs => rw [splitCh_cons, if_neg hc]
        rcases h : splitCh sep rest with _ | ⟨t, ts⟩
        · exact absurd h (splitCh_ne_nil sep rest)
        · simp

lemma splitCh_singleton {sep : Char} {s t : Str} (h : splitCh sep s = [t]) : t = s := by
  induction s generalizing t with
  | nil => simpa [splitCh] using h.symm
  | cons c rest ih =>
      by_cases hc : c = sep
      · simp only [splitCh, hc, if_true] at h
        obtain ⟨-, h2⟩ := List.cons_eq_cons.mp h
        exact absurd h2 (splitCh_ne_nil sep rest)
      · simp only [splitCh, hc, if_false] at h
        rcases hr : splitCh sep rest with _ | ⟨t0, ts⟩
        · exact absurd hr (splitCh_ne_nil sep rest)
        · rw [hr] at h
          obtain ⟨h1, h2⟩ := List.cons_eq_cons.mp h
          have hts : ts = [] := h2
          rw [hts] at hr
          rw [← h1, ih hr]

lemma splitCh_headD (sep : Char) (s : Str) :
    (splitCh sep s).headD [] = s.takeWhile (fun c => c != sep) := by
  induction s with
  | nil => simp [splitCh]
  | cons c rest ih =>
      by_cases hc : c = sep
      · simp [splitCh, hc, List.takeWhile_cons]
      · have hb : (c != sep) = true := by simpa [bne_iff_ne] using hc
        rcases hr : splitCh sep rest with _ | ⟨t, ts⟩
        · exact absurd hr (splitCh_ne_nil sep rest)
        · rw [hr] at ih
          simp only [List.headD] at ih
          simp [splitCh, hc, hr, List.takeWhile_cons, hb, ih]

lemma splitSeq2_ne_nil (a b : Char) : ∀ s, splitSeq2 a b s ≠ []
  | [] => by simp [splitSeq2]
  | [c] => by simp [splitSeq2]
  | c1 :: c2 :: rest => by
      simp only [splitSeq2]
      split
      · simp
      · rcases h : splitSeq2 a b (c2 :: rest) with _ | ⟨u, us⟩
        · exact absurd h (splitSeq2_ne_nil a b (c2 :: rest))
        · simp [h]

lemma splitSeq2_no (a b : Char) : ∀ s, a ∉ s → splitSeq2 a b s = [s]
  | [], _ => by simp [splitSeq2]
  | [c], _ => by simp [splitSeq2]
  | c1 :: c2 :: rest, h => by
      have hc : c1 ≠ a := fun hce => h (by simp [hce])
      have h2 : a ∉ c2 :: rest := fun hm => h (by simp [hm])
      simp only [splitSeq2]
      rw [if_neg (fun hco => hc hco.1)]
      rw [splitSeq2_no a b (c2 :: rest) h2]

lemma splitSeq2_append (a b : Char) (t : Str) :
    ∀ s, a ∉ s → splitSeq2 a b (s ++ a :: b :: t) = s :: splitSeq2 a b t
  | [], _ => by simp [splitSeq2]
  | [c], h => by
      have hc : c ≠ a := fun hce => h (by simp [hce])
      have hnil : splitSeq2 a b (([] : Str) ++ a :: b :: t) = [] :: splitSeq2 a b t :=
        splitSeq2_append a b t [] (by simp)
      simp only [List.nil_append] at hnil
      rw [List.cons_append, List.nil_append, splitSeq2_cons₂,
        if_neg (fun hco => hc hco.1), hnil]
  | c :: c2 :: rest, h => by
      have hc : c ≠ a := fun hce => h (by simp [hce])
      have h2 : a ∉ c2 :: rest := fun hm => h (by simp [hm])
      have ih := splitSeq2_append a b t (c2 :: rest) h2
      simp only [List.cons_append] at ih ⊢
      rw [splitSeq2_cons₂, if_neg (fun hco => hc hco.1), ih]

lemma byteLen_append (a b : Str) : byteLen (a ++ b) = byteLen a + byteLen b := by
  simp [byteLen]

lemma byteLen_replicate_space (n : Nat) : byteLen (List.replicate n ' ') = n := by
  have h1 : (' ' : Char).utf8Size = 1 := by decide
  induction n with
  | zero => simp [byteLen]
  | succ k ih =>
      rw [List.replicate_succ]
      simp only [byteLen, List.map_cons, List.sum_cons, h1] at ih ⊢
      omega

lemma padToWidth_none (s : Str) : padToWidth none s = s := rfl

lemma padToWidth_lt {s : Str} {w : Nat} (h : byteLen s < w) :
    padToWidth (some w) s = s ++ List.replicate (w - byteLen s) ' ' := by
  simp [padToWidth, h]

lemma padToWidth_ge {s : Str} {w : Nat} (h : w ≤ byteLen s) :
    padToWidth (some w) s = s := by
  simp [padToWidth, Nat.not_lt.mpr h]

lemma byteLen_padToWidth_lt {s : Str} {w : Nat} (h : byteLen s < w) :
    byteLen (padToWidth (some w) s) = w := by
  rw [padToWidth_lt h, byteLen_append, byteLen_replicate_space]
  omega

lemma prepare_nil (w : Option Nat) : prepare [] w = some (padToWidth w []) := rfl

lemma prepare_cons (c : Char) (t : Str) (w : Option Nat) (h : c.utf8Size = 1) :
    prepare (c :: t) w = some (padToWidth w (' ' :: t)) := by
  simp [prepare, byteDrop, h]

lemma prepare_cons_wide {c : Char} (t : Str) (w : Option Nat) (h : c.utf8Size ≠ 1) :
    prepare (c :: t) w = none := by
  have hpos := Char.utf8Size_pos c
  have : ¬ c.utf8Size ≤ 1 := by omega
  simp [prepare, byteDrop, this]

lemma prepare_markerReplaced {line : Str} (w : Option Nat)
    (h : line = [] ∨ ∃ c t, line = c :: t ∧ c.utf8Size = 1) :
    prepare line w = some (padToWidth w (markerReplaced line)) := by
  rcases h with rfl | ⟨c, t, rfl, hc⟩
  · exact prepare_nil w
  · rw [prepare_cons c t w hc]
    rfl

lemma fileName_cases {p f : Str} (h : fileName p = some f) :
    f ≠ ['.', '.'] ∧
      ((splitCh '/' p).filter (fun t => !(t == [] || t == ['.']))).getLast? = some f := by
  simp only [fileName] at h
  split at h
  · exact absurd h (by simp)
  · next t hg =>
      split at h
      · exact absurd h (by simp)
      · next hne =>
          obtain rfl : t = f := Option.some_inj.mp h
          exact ⟨hne, hg⟩

lemma fileName_of_concat {d f : Str} (h1 : '/' ∉ f) (h2 : f ≠ []) (h3 : f ≠ ['.'])
    (h4 : f ≠ ['.', '.']) : fileName (d ++ '/' :: f) = some f := by
  have hf : splitCh '/' f = [f] := splitCh_no_sep h1
  have hfil : List.filter (fun t => !(t == [] || t == ['.'])) [f] = [f] := by
    simp [h2, h3]
  simp only [fileName, splitCh_append, List.filter_append, hf, hfil]
  rw [List.getLast?_append_cons]
  simp [h4]

lemma fileName_self {f : Str} (h1 : '/' ∉ f) (h2 : f ≠ []) (h3 : f ≠ ['.'])
    (h4 : f ≠ ['.', '.']) : fileName f = some f := by
  have hf : splitCh '/' f = [f] := splitCh_no_sep h1
  have hfil : List.filter (fun t => !(t == [] || t == ['.'])) [f] = [f] := by
    simp [h2, h3]
  simp only [fileName, hf, hfil]
  simp [h4]

lemma pathExtension_no_dot {p f : Str} (hf : fileName p = some f) (h : '.' ∉ f) :
    pathExtension p = none := by
  have hne : f ≠ ['.', '.'] := fun he => h (by simp [he])
  have hs : splitCh '.' f = [f] := splitCh_no_sep h
  simp [pathExtension, hf, hne, hs]

lemma pathExtension_dotted {p f b e : Str} (hf : fileName p = some f)
    (hfe : f = b ++ '.' :: e) (hb : b ≠ []) (he : '.' ∉ e) :
    pathExtension p = some e := by
  have hne : f ≠ ['.', '.'] := (fileName_cases hf).1
  have hs : splitCh '.' f = splitCh '.' b ++ [e] := by
    rw [hfe, splitCh_append, splitCh_no_sep he]
  rcases hsb : splitCh '.' b with _ | ⟨t, ts⟩
  · exact absurd hsb (splitCh_ne_nil '.' b)
  · rcases ts with _ | ⟨t2, ts2⟩
    · have hbt : t = b := splitCh_singleton hsb
      have hsf : splitCh '.' f = [b, e] := by rw [hs, hsb, hbt]; rfl
      simp [pathExtension, hf, hne, hsf, hb]
    · have hsf : splitCh '.' f = t :: (t2 :: (ts2 ++ [e])) := by
        rw [hs, hsb]; simp
      have hlast : (t2 :: (ts2 ++ [e])).getLast? = some e := by
        rw [← List.cons_append, List.getLast?_append_cons]
        rfl
      simp [pathExtension, hf, hne, hsf, hlast]

lemma pathExtension_hidden {p e : Str} (hf : fileName p = some ('.' :: e))
    (he : '.' ∉ e) : pathExtension p = none := by
  have hne : ('.' :: e : Str) ≠ ['.', '.'] := (fileName_cases hf).1
  have hs : splitCh '.' ('.' :: e : Str) = [[], e] := by
    have : ('.' :: e : Str) = [] ++ '.' :: e := by simp
    rw [this, splitCh_append, splitCh_no_sep he]
    rfl
  simp [pathExtension, hf, hne, hs]

lemma get_extension_no_dot {p f : Str} (hf : fileName p = some f) (h : '.' ∉ f) :
    get_extension p = some f := by
  simp [get_extension, pathExtension_no_dot hf h, hf]

lemma get_extension_dotted {p f b e : Str} (hf : fileName p = some f)
    (hfe : f = b ++ '.' :: e) (hb : b ≠ []) (he : '.' ∉ e) :
    get_extension p = some e := by
  simp [get_extension, pathExtension_dotted hf hfe hb he]

lemma get_extension_hidden {p e : Str} (hf : fileName p = some ('.' :: e))
    (he : '.' ∉ e) : get_extension p = some ('.' :: e) := by
  simp [get_extension, pathExtension_hidden hf he, hf]

lemma get_extension_of_no_fileName {p : Str} (hf : fileName p = none) :
    get_extension p = none := by
  simp [get_extension, pathExtension, hf]

lemma sliceTail2_isSome {o : Option Str}
    (h : Option.all (fun s => (byteDrop 2 s).isSome) o = true) :
    ∃ r, sliceTail2 o = some r := by
  rcases o with _ | s
  · exact ⟨none, rfl⟩
  · simp only [Option.all] at h
    rcases hbd : byteDrop 2 s with _ | t
    · rw [hbd] at h; simp at h
    · exact ⟨some t, by simp [sliceTail2, hbd]⟩

/-- C2, counterexample: on the malformed header line whose third token is a
single byte, the extension parser slices two bytes off a one-byte token and
panics (the none value of the model), contradicting the claim that all
three metadata parsers return normally on every input. -/
theorem extension_parse_panics_on_short_token :
    get_file_extension_from_diff_line (("diff --git a b").data) = none := by rfl

/-- C2 (amended): parse_hunk_metadata is total over arbitrary input by
construction, and the two file-header parsers return normally on every
line whose third and fourth space-separated tokens, when present, are at
least two bytes long with a character boundary after byte two (true of
every well-formed diff file-pair header); on shorter tokens they panic in
the two-byte slice. -/
theorem metadata_parsers_total_on_sliceable_lines :
    ∀ line : Str,
      Option.all (fun s => (byteDrop 2 s).isSome) ((splitCh ' ' line))[2]? = true →
      Option.all (fun s => (byteDrop 2 s).isSome) ((splitCh ' ' line))[3]? = true →
      (get_file_extension_from_diff_line line).isSome = true ∧
        (get_file_change_description_from_diff_line line).isSome = true := by
  intro line h2 h3
  obtain ⟨r2, hr2⟩ := sliceTail2_isSome h2
  obtain ⟨r3, hr3⟩ := sliceTail2_isSome h3
  constructor
  · simp [get_file_extension_from_diff_line, get_file_extensions_from_diff_line, hr2, hr3]
  · simp [get_file_change_description_from_diff_line, get_file_paths_from_diff_line, hr2, hr3]

/-- Witness for the amended C2 theorem at a well-formed header line. -/
theorem metadata_parsers_total_witness :
    (get_file_extension_from_diff_line (("diff --git a/src/main.rs b/src/main.rs").data)).isSome = true ∧
      (get_file_change_description_from_diff_line
          (("diff --git a/src/main.rs b/src/main.rs").data)).isSome = true :=
  metadata_parsers_total_on_sliceable_lines (("diff --git a/src/main.rs b/src/main.rs").data)
    (by decide) (by decide)

/-- C4, counterexample: the renamed arm of the source format string puts
one space before the long rightwards arrow and two spaces after it, so the
rendered description is not the single-spaced string the claim specifies. -/
theorem change_description_renamed_spacing :
    get_file_change_description_from_diff_line (("diff --git a/a b/b").data)
        = some (("renamed: a ⟶  b").data) ∧
      (("renamed: a ⟶  b").data : Str) ≠ (("renamed: a ⟶ b").data) :=
  ⟨by rfl, by decide⟩

/-- C4 (amended): the change description is the path itself for identical
parsed paths, an added or deleted form when exactly one side is the
null-device sentinel, the renamed form with one space before the arrow and
two after it for differing real paths, and a question mark when either
path is missing; and the identical-paths example from the claim holds. -/
theorem change_description_cases :
    (∀ line f : Str, get_file_paths_from_diff_line line = some (some f, some f) →
        get_file_change_description_from_diff_line line = some f)
  ∧ (∀ line f2 : Str, get_file_paths_from_diff_line line = some (some devnull, some f2) →
        f2 ≠ devnull →
        get_file_change_description_from_diff_line line = some (("added: ").data ++ f2))
  ∧ (∀ line f1 : Str, get_file_paths_from_diff_line line = some (some f1, some devnull) →
        f1 ≠ devnull →
        get_file_change_description_from_diff_line line = some (("deleted: ").data ++ f1))
  ∧ (∀ line f1 f2 : Str, get_file_paths_from_diff_line line = some (some f1, some f2) →
        f1 ≠ f2 → f1 ≠ devnull → f2 ≠ devnull →
        get_file_change_description_from_diff_line line
          = some (("renamed: ").data ++ f1 ++ (" ⟶  ").data ++ f2))
  ∧ (∀ line : Str, ∀ a b : Option Str,
        get_file_paths_from_diff_line line = some (a, b) →
        a = none ∨ b = none →
        get_file_change_description_from_diff_line line = some (("?").data))
  ∧ get_file_change_description_from_diff_line (("diff --git a/src/main.rs b/src/main.rs").data)
      = some (("src/main.rs").data) := by
  refine ⟨?_, ?_, ?_, ?_, ?_, by rfl⟩
  · intro line f h
    simp [get_file_change_description_from_diff_line, h]
  · intro line f2 h hne
    have hd : devnull ≠ f2 := fun he => hne he.symm
    simp [get_file_change_description_from_diff_line, h, hd, hne]
  · intro line f1 h hne
    simp [get_file_change_description_from_diff_line, h, hne]
  · intro line f1 f2 h hne h1 h2
    simp [get_file_change_description_from_diff_line, h, hne, h1, h2]
  · intro line a b h hab
    rcases hab with rfl | rfl
    · simp [get_file_change_description_from_diff_line, h]
    · rcases a with _ | f
      · simp [get_file_change_description_from_diff_line, h]
      · simp [get_file_change_description_from_diff_line, h]

/-- Witness for the amended C4 theorem at an identical-path header line. -/
theorem change_description_cases_witness :
    get_file_change_description_from_diff_line (("diff --git a/x b/x").data)
      = some (("x").data) :=
  change_description_cases.1 (("diff --git a/x b/x").data) (("x").data) (by rfl)

/-- C5, counterexample: with a configured width of two, the empty input
line is not returned unmodified; the padding step still applies to it and
produces two spaces. -/
theorem prepare_pads_empty_line :
    prepare [] (some 2) = some ([' ', ' ']) ∧ ([' ', ' '] : Str) ≠ [] :=
  ⟨by rfl, by decide⟩

/-- C5 (amended): on a line that is empty or starts with a one-byte
character (every line whose first character is one of the diff markers),
prepare replaces the leading character of a non-empty line with a space,
then with no configured width returns that line unchanged, with a
configured width strictly greater than the byte length right-pads with
spaces to exactly that width, and with a width not exceeding the byte
length never truncates; the empty line is unmodified only when no width is
configured, and a line starting with a multi-byte character makes the
slice panic instead. -/
theorem prepare_marker_and_padding :
    ∀ (line : Str) (w : Nat),
      (line = [] ∨ ∃ c t, line = c :: t ∧ c.utf8Size = 1) →
      prepare line none = some (markerReplaced line)
      ∧ (byteLen (markerReplaced line) < w →
          prepare line (some w)
            = some (markerReplaced line
                ++ List.replicate (w - byteLen (markerReplaced line)) ' ')
          ∧ byteLen (markerReplaced line
                ++ List.replicate (w - byteLen (markerReplaced line)) ' ') = w)
      ∧ (w ≤ byteLen (markerReplaced line) →
          prepare line (some w) = some (markerReplaced line)) := by
  intro line w h
  refine ⟨?_, ?_, ?_⟩
  · rw [prepare_markerReplaced none h, padToWidth_none]
  · intro hlt
    constructor
    · rw [prepare_markerReplaced (some w) h, padToWidth_lt hlt]
    · rw [byteLen_append, byteLen_replicate_space]
      omega
  · intro hge
    rw [prepare_markerReplaced (some w) h, padToWidth_ge hge]

/-- Witness for the amended C5 theorem on a removed line. -/
theorem prepare_marker_and_padding_witness :
    prepare (("-foo").data) none = some ((" foo").data) :=
  (prepare_marker_and_padding (("-foo").data) 8
    (Or.inr ⟨'-', ("foo").data, rfl, by decide⟩)).1

/-- C6, counterexample: for a hidden file whose only dot is the leading
one, the extension lookup is not the text after the last dot; the Rust
path extension is absent there and the parser falls back to the full file
name. -/
theorem extension_of_dotfile_line :
    get_file_extension_from_diff_line (("diff --git a/.gitignore b/.gitignore").data)
        = some (some ((".gitignore").data)) ∧
      ((".gitignore").data : Str) ≠ (("gitignore").data) :=
  ⟨by rfl, by decide⟩

/-- C6 (amended): per-path extraction follows the Rust path semantics of
the source: the text after the last dot when the file name has a non-empty
part before that dot, the full file name when the name has no dot or only
a leading dot, and nothing when the path has no file name; the two
per-path results are combined as the claim states (shared when equal, the
single present one, none when absent or in disagreement); and the shared
extension example from the claim holds. -/
theorem extension_extraction_cases :
    (∀ line e1 e2 : Str,
        get_file_extensions_from_diff_line line = some (some e1, some e2) →
        get_file_extension_from_diff_line line = some (if e1 = e2 then some e1 else none))
  ∧ (∀ line e1 : Str, get_file_extensions_from_diff_line line = some (some e1, none) →
        get_file_extension_from_diff_line line = some (some e1))
  ∧ (∀ line e2 : Str, get_file_extensions_from_diff_line line = some (none, some e2) →
        get_file_extension_from_diff_line line = some (some e2))
  ∧ (∀ line : Str, get_file_extensions_from_diff_line line = some (none, none) →
        get_file_extension_from_diff_line line = some none)
  ∧ (∀ p f : Str, fileName p = some f → '.' ∉ f → get_extension p = some f)
  ∧ (∀ p f b e : Str, fileName p = some f → f = b ++ '.' :: e → b ≠ [] → '.' ∉ e →
        get_extension p = some e)
  ∧ (∀ p e : Str, fileName p = some ('.' :: e) → '.' ∉ e →
        get_extension p = some ('.' :: e))
  ∧ (∀ p : Str, fileName p = none → get_extension p = none)
  ∧ get_file_extension_from_diff_line (("diff --git a/src/main.rs b/src/main.rs").data)
      = some (some (("rs").data)) := by
  refine ⟨?_, ?_, ?_, ?_,
    fun p f hf h => get_extension_no_dot hf h,
    fun p f b e hf hfe hb he => get_extension_dotted hf hfe hb he,
    fun p e hf he => get_extension_hidden hf he,
    fun p hf => get_extension_of_no_fileName hf, by rfl⟩
  · intro line e1 e2 h
    simp [get_file_extension_from_diff_line, h]
  · intro line e1 h
    simp [get_file_extension_from_diff_line, h]
  · intro line e2 h
    simp [get_file_extension_from_diff_line, h]
  · intro line h
    simp [get_file_extension_from_diff_line, h]

/-- Witness for the amended C6 theorem on a dotted file name. -/
theorem extension_extraction_cases_witness :
    get_extension (("src/main.rs").data) = some (("rs").data) :=
  extension_extraction_cases.2.2.2.2.2.1 (("src/main.rs").data) (("main.rs").data)
    (("main").data) (("rs").data) (by rfl) (by rfl) (by decide) (by decide)

/-- C7, counterexample: when the code fragment itself contains the
two-at-sign marker, the parser returns only the text between the second
and third markers, not all the text after the second marker as the claim
states. -/
theorem hunk_metadata_fragment_stops_at_third_marker :
    parse_hunk_metadata (("@@ -1,1 +1,1 @@ a @@ b").data) = ((" a ").data, ("1").data) ∧
      ((" a ").data : Str) ≠ ((" a @@ b").data) :=
  ⟨by rfl, by decide⟩

/-- C7 (amended): for a hunk header built from a marker-free metadata
segment and a marker-free code fragment, the parser returns the fragment
(the text between the second and third markers, insensitive to anything
after a third marker) and the line number taken from the metadata segment
between its first plus sign and the following comma or plus sign, empty
when there is no plus sign; and the concrete example from the claim
holds. -/
theorem parse_hunk_metadata_spec :
    (∀ meta frag : Str, '@' ∉ meta → '@' ∉ frag →
        parse_hunk_metadata ('@' :: '@' :: (meta ++ '@' :: '@' :: frag))
          = (frag, hunkLineNumber meta))
  ∧ (∀ meta frag more : Str, '@' ∉ meta → '@' ∉ frag →
        parse_hunk_metadata ('@' :: '@' :: (meta ++ '@' :: '@' :: (frag ++ '@' :: '@' :: more)))
          = (frag, hunkLineNumber meta))
  ∧ (∀ m1 m2 : Str, '+' ∉ m1 →
        hunkLineNumber (m1 ++ '+' :: m2)
          = m2.takeWhile (fun c => c != '+' && c != ','))
  ∧ (∀ meta : Str, '+' ∉ meta → hunkLineNumber meta = [])
  ∧ parse_hunk_metadata (("@@ -74,15 +75,14 @@ pub fn delta(").data)
      = ((" pub fn delta(").data, ("75").data) := by
  refine ⟨?_, ?_, ?_, ?_, by rfl⟩
  · intro meta frag hm hf
    have h0 : splitSeq2 '@' '@' (('@' : Char) :: '@' :: (meta ++ '@' :: '@' :: frag))
        = [] :: splitSeq2 '@' '@' (meta ++ '@' :: '@' :: frag) := by
      have := splitSeq2_append '@' '@' (meta ++ '@' :: '@' :: frag) [] (by simp)
      simpa using this
    have h1 : splitSeq2 '@' '@' (meta ++ '@' :: '@' :: frag)
        = meta :: splitSeq2 '@' '@' frag := splitSeq2_append '@' '@' frag meta hm
    have h2 : splitSeq2 '@' '@' frag = [frag] := splitSeq2_no '@' '@' frag hf
    simp [parse_hunk_metadata, hunkLineNumber, h0, h1, h2]
  · intro meta frag more hm hf
    have h0 : splitSeq2 '@' '@'
          (('@' : Char) :: '@' :: (meta ++ '@' :: '@' :: (frag ++ '@' :: '@' :: more)))
        = [] :: splitSeq2 '@' '@' (meta ++ '@' :: '@' :: (frag ++ '@' :: '@' :: more)) := by
      have := splitSeq2_append '@' '@' (meta ++ '@' :: '@' :: (frag ++ '@' :: '@' :: more))
        [] (by simp)
      simpa using this
    have h1 : splitSeq2 '@' '@' (meta ++ '@' :: '@' :: (frag ++ '@' :: '@' :: more))
        = meta :: splitSeq2 '@' '@' (frag ++ '@' :: '@' :: more) :=
      splitSeq2_append '@' '@' (frag ++ '@' :: '@' :: more) meta hm
    have h2 : splitSeq2 '@' '@' (frag ++ '@' :: '@' :: more)
        = frag :: splitSeq2 '@' '@' more := splitSeq2_append '@' '@' more frag hf
    simp [parse_hunk_metadata, hunkLineNumber, h0, h1, h2]
  · intro m1 m2 hm
    have h1 : splitCh '+' (m1 ++ '+' :: m2) = splitCh '+' m1 ++ splitCh '+' m2 :=
      splitCh_append '+' m1 m2
    have h2 : splitCh '+' m1 = [m1] := splitCh_no_sep hm
    rcases h3 : splitCh '+' m2 with _ | ⟨t, ts⟩
    · exact absurd h3 (splitCh_ne_nil '+' m2)
    · have ht : t = m2.takeWhile (fun c => c != '+') := by
        have := splitCh_headD '+' m2
        rw [h3] at this
        simpa using this
      have hidx : (splitCh '+' (m1 ++ '+' :: m2))[1]? = some t := by
        rw [h1, h2, h3]
        simp
      rw [hunkLineNumber, hidx]
      show (splitCh ',' t).headD [] = _
      rw [splitCh_headD, ht, List.takeWhile_takeWhile]
      congr 1
      funext a
      by_cases ha1 : a = '+' <;> by_cases ha2 : a = ',' <;> simp [ha1, ha2]
  · intro meta hm
    have h2 : splitCh '+' meta = [meta] := splitCh_no_sep hm
    rw [hunkLineNumber, h2]
    rfl

/-- Witness for the amended C7 theorem at a small concrete header. -/
theorem parse_hunk_metadata_spec_witness :
    parse_hunk_metadata (("@@ -1,2 +3,4 @@ fn").data) = ((" fn").data, ("3").data) :=
  parse_hunk_metadata_spec.1 ((" -1,2 +3,4 ").data) ((" fn").data) (by decide) (by decide)

lemma sliceTail2_sound {o : Option Str} {r : Option Str} (h : sliceTail2 o = some r) :
    r = o.bind (byteDrop 2) := by
  rcases o with _ | s
  · simpa [sliceTail2] using h.symm
  · have h' : (byteDrop 2 s).map some = some r := h
    show r = byteDrop 2 s
    rcases hbd : byteDrop 2 s with _ | t
    · rw [hbd] at h'
      simp at h'
    · rw [hbd] at h'
      simp only [Option.map_some', Option.some.injEq] at h'
      exact h'.symm

/-- C10: the two paths, and through them the change description and the
extension pair, are derived solely from the third and fourth
space-delimited tokens of the line; each path is its token with the first
two bytes sliced off, so a token beginning with two one-byte characters
loses exactly its first two characters, and the portion of a file path
after its first space lands in a later token and is dropped, as the
concrete space-containing example shows in the parsed paths, the
description and the extension lookup. -/
theorem paths_from_tokens_only :
    (∀ l1 l2 : Str,
        (splitCh ' ' l1)[2]? = (splitCh ' ' l2)[2]? →
        (splitCh ' ' l1)[3]? = (splitCh ' ' l2)[3]? →
        get_file_paths_from_diff_line l1 = get_file_paths_from_diff_line l2
        ∧ get_file_extensions_from_diff_line l1 = get_file_extensions_from_diff_line l2
        ∧ get_file_change_description_from_diff_line l1
            = get_file_change_description_from_diff_line l2)
  ∧ (∀ line : Str, ∀ a b : Option Str,
        get_file_paths_from_diff_line line = some (a, b) →
        a = ((splitCh ' ' line)[2]?).bind (byteDrop 2)
        ∧ b = ((splitCh ' ' line)[3]?).bind (byteDrop 2))
  ∧ (∀ line : Str, ∀ a b : Option Str, ∀ (c1 c2 : Char) (r : Str),
        get_file_paths_from_diff_line line = some (a, b) →
        (splitCh ' ' line)[2]? = some (c1 :: c2 :: r) →
        c1.utf8Size = 1 → c2.utf8Size = 1 →
        a = some r)
  ∧ get_file_paths_from_diff_line (("diff --git a/x.rs b/my file.rs").data)
      = some (some (("x.rs").data), some (("my").data))
  ∧ get_file_change_description_from_diff_line (("diff --git a/x.rs b/my file.rs").data)
      = some (("renamed: x.rs ⟶  my").data)
  ∧ get_file_extensions_from_diff_line (("diff --git a/x.rs b/my file.rs").data)
      = some (some (("rs").data), some (("my").data)) := by
  have main2 : ∀ line : Str, ∀ a b : Option Str,
      get_file_paths_from_diff_line line = some (a, b) →
      a = ((splitCh ' ' line)[2]?).bind (byteDrop 2)
      ∧ b = ((splitCh ' ' line)[3]?).bind (byteDrop 2) := by
    intro line a b h
    simp only [get_file_paths_from_diff_line, bind, Option.bind] at h
    rcases h2 : sliceTail2 (splitCh ' ' line)[2]? with _ | r2
    · rw [h2] at h; simp at h
    · rw [h2] at h
      rcases h3 : sliceTail2 (splitCh ' ' line)[3]? with _ | r3
      · rw [h3] at h; simp at h
      · rw [h3] at h
        simp only [Option.some.injEq, Prod.mk.injEq] at h
        obtain ⟨rfl, rfl⟩ := h.symm
        exact ⟨sliceTail2_sound h2, sliceTail2_sound h3⟩
  refine ⟨?_, main2, ?_, by rfl, by rfl, by rfl⟩
  · intro l1 l2 h2 h3
    have hp : get_file_paths_from_diff_line l1 = get_file_paths_from_diff_line l2 := by
      simp only [get_file_paths_from_diff_line]
      rw [h2, h3]
    have he : get_file_extensions_from_diff_line l1
        = get_file_extensions_from_diff_line l2 := by
      simp only [get_file_extensions_from_diff_line]
      rw [h2, h3]
    have hd : get_file_change_description_from_diff_line l1
        = get_file_change_description_from_diff_line l2 := by
      simp only [get_file_change_description_from_diff_line]
      rw [hp]
    exact ⟨hp, he, hd⟩
  · intro line a b c1 c2 r h htok hc1 hc2
    have ha := (main2 line a b h).1
    have hbd : byteDrop 2 (c1 :: c2 :: r) = some r := by
      simp [byteDrop, hc1, hc2]
    rw [ha, htok]
    simpa using hbd

/-- Witness for the C10 theorem: two different lines sharing their third
and fourth tokens get the same description. -/
theorem paths_from_tokens_only_witness :
    get_file_change_description_from_diff_line (("diff --git a/x b/y").data)
      = get_file_change_description_from_diff_line (("diff --xyz a/x b/y").data) :=
  (paths_from_tokens_only.1 (("diff --git a/x b/y").data) (("diff --xyz a/x b/y").data)
    (by rfl) (by rfl)).2.2

lemma append_singleton_ne {α : Type} (l : List α) (x : α) : l ++ [x] ≠ l := by
  intro h
  have := congrArg List.length h
  simp at this

lemma flushEvents_eq_nil_iff (m p : List Str) :
    flushEvents m p = [] ↔ m = [] ∧ p = [] := by
  unfold flushEvents
  split
  · simp_all
  · next hnot =>
      split <;> simp_all

lemma paint_hunk_line_minus (cfg : Config) (st : DeltaState) (t : Str) :
    paint_hunk_line cfg st ('-' :: t)
      = some (⟨State.HunkMinus, st.synCtx,
          (if st.state = State.HunkPlus then [] else st.minus_lines)
            ++ [padToWidth cfg.width (' ' :: t)],
          if st.state = State.HunkPlus then [] else st.plus_lines⟩,
          if st.state = State.HunkPlus then flushEvents st.minus_lines st.plus_lines
          else []) := by
  by_cases hsp : st.state = State.HunkPlus <;>
    simp [paint_hunk_line, hsp, prepare_cons '-' t cfg.width (by decide)]

lemma paint_hunk_line_plus (cfg : Config) (st : DeltaState) (t : Str) :
    paint_hunk_line cfg st ('+' :: t)
      = some (⟨State.HunkPlus, st.synCtx, st.minus_lines,
          st.plus_lines ++ [padToWidth cfg.width (' ' :: t)]⟩, []) := by
  simp [paint_hunk_line, prepare_cons '+' t cfg.width (by decide)]

lemma paint_hunk_line_other (cfg : Config) (st : DeltaState) {line : Str}
    (hhead : ∀ c, line.head? = some c → c ≠ '-' ∧ c ≠ '+')
    (hbyte : line = [] ∨ ∃ c t, line = c :: t ∧ c.utf8Size = 1) :
    paint_hunk_line cfg st line
      = some (⟨State.HunkZero, st.synCtx, [], []⟩,
          flushEvents st.minus_lines st.plus_lines
            ++ [Event.paintLine (padToWidth cfg.width (markerReplaced line))]) := by
  have hm : line.head? ≠ some '-' := by
    intro hc
    exact (hhead '-' hc).1 rfl
  have hp : line.head? ≠ some '+' := by
    intro hc
    exact (hhead '+' hc).2 rfl
  simp [paint_hunk_line, hm, hp, prepare_markerReplaced cfg.width hbyte]

lemma paintHunkLines_append (cfg : Config) :
    ∀ (xs ys : List Str) (st : DeltaState),
      paintHunkLines cfg st (xs ++ ys)
        = (paintHunkLines cfg st xs).bind
            (fun r1 => (paintHunkLines cfg r1.1 ys).map
              (fun r2 => (r2.1, r1.2 ++ r2.2)))
  | [], ys, st => by
      rcases h : paintHunkLines cfg st ys with _ | r <;>
        simp [paintHunkLines, h]
  | x :: xs, ys, st => by
      rcases h1 : paint_hunk_line cfg st x with _ | r1
      · simp [paintHunkLines, h1]
      · rw [List.cons_append]
        simp only [paintHunkLines, h1]
        rw [paintHunkLines_append cfg xs ys r1.1]
        rcases h2 : paintHunkLines cfg r1.1 xs with _ | r2
        · simp
        · rcases h3 : paintHunkLines cfg r2.1 ys with _ | r3
          · simp [h3]
          · simp [h3, List.append_assoc]

lemma paintHunkLines_minus_run (cfg : Config) :
    ∀ (ms : List Str) (st : DeltaState),
      (∀ l ∈ ms, l.head? = some '-') →
      st.state ≠ State.HunkPlus → st.plus_lines = [] →
      paintHunkLines cfg st ms
        = some (⟨(if ms = [] then st.state else State.HunkMinus), st.synCtx,
            st.minus_lines
              ++ ms.map (fun l => padToWidth cfg.width (markerReplaced l)), []⟩, [])
  | [], st, _, _, hpl => by
      rcases st with ⟨s, syn, m, p⟩
      simp only at hpl
      subst hpl
      simp [paintHunkLines]
  | l :: ls, st, hheads, hst, hpl => by
      have hl : l.head? = some '-' := hheads l (by simp)
      rcases l with _ | ⟨c, t⟩
      · simp at hl
      · have hc : c = '-' := by simpa using hl
        subst hc
        have hpaint := paint_hunk_line_minus cfg st t
        rw [if_neg hst, if_neg hst, if_neg hst] at hpaint
        have ih := paintHunkLines_minus_run cfg ls
          ⟨State.HunkMinus, st.synCtx,
            st.minus_lines ++ [padToWidth cfg.width (' ' :: t)], st.plus_lines⟩
          (fun x hx => hheads x (by simp [hx])) (by simp) (by simpa using hpl)
        simp only at ih
        simp only [paintHunkLines, hpaint, ih]
        simp [markerReplaced, hpl, List.append_assoc]

lemma paintHunkLines_plus_run (cfg : Config) :
    ∀ (ps : List Str) (st : DeltaState),
      (∀ l ∈ ps, l.head? = some '+') →
      paintHunkLines cfg st ps
        = some (⟨(if ps = [] then st.state else State.HunkPlus), st.synCtx,
            st.minus_lines,
            st.plus_lines
              ++ ps.map (fun l => padToWidth cfg.width (markerReplaced l))⟩, [])
  | [], st, _ => by
      rcases st with ⟨s, syn, m, p⟩
      simp [paintHunkLines]
  | l :: ls, st, hheads => by
      have hl : l.head? = some '+' := hheads l (by simp)
      rcases l with _ | ⟨c, t⟩
      · simp at hl
      · have hc : c = '+' := by simpa using hl
        subst hc
        have hpaint := paint_hunk_line_plus cfg st t
        have ih := paintHunkLines_plus_run cfg ls
          ⟨State.HunkPlus, st.synCtx, st.minus_lines,
            st.plus_lines ++ [padToWidth cfg.width (' ' :: t)]⟩
          (fun x hx => hheads x (by simp [hx]))
        simp only at ih
        simp only [paintHunkLines, hpaint, ih]
        simp [markerReplaced, List.append_assoc]

lemma flushEvents_pair {m p : List Str} (hm : m ≠ []) (hp : p ≠ []) :
    flushEvents m p = [Event.paintPaired m p] := by
  unfold flushEvents
  rw [if_neg (fun h => hm h.1), if_pos ⟨hm, hp⟩]

/-- C3, counterexample: a context line whose first character is wider than
one byte makes prepare panic, so the line is not painted and there is no
next state at all, contrary to the claim's third clause. -/
theorem paint_hunk_line_panics_on_multibyte_context :
    paint_hunk_line ⟨SectionStyle.Box, SectionStyle.Box, SectionStyle.Box, none⟩
      ⟨State.HunkZero, some (), [], []⟩ (("é").data) = none := by rfl

/-- C3 (amended): on a removed line the buffer is flushed exactly when the
state is HunkPlus, the prepared line joins the removed sequence and the
state becomes HunkMinus; on an added line nothing is flushed, the prepared
line joins the added sequence and the state becomes HunkPlus; on any line
that is empty or starts with some other one-byte character the buffer is
flushed, that single line is painted immediately and the state becomes
HunkZero (a context line starting with a multi-byte character panics in
prepare instead); consequently a non-empty removed run followed by a
non-empty added run and a closing context line produces exactly one
paired flush carrying both prepared runs. -/
theorem paint_hunk_line_protocol :
    (∀ (cfg : Config) (st : DeltaState) (t : Str),
        paint_hunk_line cfg st ('-' :: t)
          = some (⟨State.HunkMinus, st.synCtx,
              (if st.state = State.HunkPlus then [] else st.minus_lines)
                ++ [padToWidth cfg.width (' ' :: t)],
              if st.state = State.HunkPlus then [] else st.plus_lines⟩,
              if st.state = State.HunkPlus then flushEvents st.minus_lines st.plus_lines
              else []))
  ∧ (∀ (cfg : Config) (st : DeltaState) (t : Str),
        paint_hunk_line cfg st ('+' :: t)
          = some (⟨State.HunkPlus, st.synCtx, st.minus_lines,
              st.plus_lines ++ [padToWidth cfg.width (' ' :: t)]⟩, []))
  ∧ (∀ (cfg : Config) (st : DeltaState) (line : Str),
        (∀ c, line.head? = some c → c ≠ '-' ∧ c ≠ '+') →
        (line = [] ∨ ∃ c t, line = c :: t ∧ c.utf8Size = 1) →
        paint_hunk_line cfg st line
          = some (⟨State.HunkZero, st.synCtx, [], []⟩,
              flushEvents st.minus_lines st.plus_lines
                ++ [Event.paintLine (padToWidth cfg.width (markerReplaced line))]))
  ∧ (∀ (cfg : Config) (s0 : State) (syn : Option Unit) (ms ps : List Str) (c : Char) (t : Str),
        s0 ≠ State.HunkPlus → ms ≠ [] → ps ≠ [] →
        (∀ l ∈ ms, l.head? = some '-') →
        (∀ l ∈ ps, l.head? = some '+') →
        (c ≠ '-' ∧ c ≠ '+') → c.utf8Size = 1 →
        paintHunkLines cfg ⟨s0, syn, [], []⟩ (ms ++ ps ++ [c :: t])
          = some (⟨State.HunkZero, syn, [], []⟩,
              [Event.paintPaired
                 (ms.map (fun l => padToWidth cfg.width (markerReplaced l)))
                 (ps.map (fun l => padToWidth cfg.width (markerReplaced l))),
               Event.paintLine (padToWidth cfg.width (' ' :: t))])) := by
  refine ⟨paint_hunk_line_minus, paint_hunk_line_plus,
    fun cfg st line h1 h2 => paint_hunk_line_other cfg st h1 h2, ?_⟩
  intro cfg s0 syn ms ps c t hs0 hms hps hmheads hpheads hc hc1
  have h1 : paintHunkLines cfg ⟨s0, syn, [], []⟩ ms
      = some (⟨State.HunkMinus, syn,
          ms.map (fun l => padToWidth cfg.width (markerReplaced l)), []⟩, []) := by
    have := paintHunkLines_minus_run cfg ms ⟨s0, syn, [], []⟩ hmheads hs0 rfl
    simpa [if_neg hms] using this
  have h2 : paintHunkLines cfg
      ⟨State.HunkMinus, syn,
        ms.map (fun l => padToWidth cfg.width (markerReplaced l)), []⟩ ps
      = some (⟨State.HunkPlus, syn,
          ms.map (fun l => padToWidth cfg.width (markerReplaced l)),
          ps.map (fun l => padToWidth cfg.width (markerReplaced l))⟩, []) := by
    have := paintHunkLines_plus_run cfg ps
      ⟨State.HunkMinus, syn,
        ms.map (fun l => padToWidth cfg.width (markerReplaced l)), []⟩ hpheads
    simpa [if_neg hps] using this
  have hmne : ms.map (fun l => padToWidth cfg.width (markerReplaced l)) ≠ [] := by
    simpa using hms
  have hpne : ps.map (fun l => padToWidth cfg.width (markerReplaced l)) ≠ [] := by
    simpa using hps
  have h3 : paint_hunk_line cfg
      ⟨State.HunkPlus, syn,
        ms.map (fun l => padToWidth cfg.width (markerReplaced l)),
        ps.map (fun l => padToWidth cfg.width (markerReplaced l))⟩ (c :: t)
      = some (⟨State.HunkZero, syn, [], []⟩,
          [Event.paintPaired
             (ms.map (fun l => padToWidth cfg.width (markerReplaced l)))
             (ps.map (fun l => padToWidth cfg.width (markerReplaced l))),
           Event.paintLine (padToWidth cfg.width (' ' :: t))]) := by
    have hoth := @paint_hunk_line_other cfg
      ⟨State.HunkPlus, syn,
        ms.map (fun l => padToWidth cfg.width (markerReplaced l)),
        ps.map (fun l => padToWidth cfg.width (markerReplaced l))⟩ (c :: t)
      (fun c' hc' => by
        simp only [List.head?_cons, Option.some.injEq] at hc'
        subst hc'
        exact hc)
      (Or.inr ⟨c, t, rfl, hc1⟩)
    rw [hoth]
    dsimp only
    rw [flushEvents_pair hmne hpne]
    rfl
  rw [paintHunkLines_append cfg (ms ++ ps) [c :: t] ⟨s0, syn, [], []⟩,
    paintHunkLines_append cfg ms ps ⟨s0, syn, [], []⟩, h1]
  simp [h2, h3, paintHunkLines]

/-- Witness for the amended C3 theorem: one removed and one added line
followed by a context line yield a single paired flush. -/
theorem paint_hunk_line_protocol_witness :
    paintHunkLines ⟨SectionStyle.Box, SectionStyle.Box, SectionStyle.Box, none⟩
        ⟨State.HunkZero, some (), [], []⟩
        ([("-a").data] ++ [("+b").data] ++ [' ' :: ("c").data])
      = some (⟨State.HunkZero, some (), [], []⟩,
          [Event.paintPaired [(" a").data] [(" b").data],
           Event.paintLine ((" c").data)]) :=
  paint_hunk_line_protocol.2.2.2
    ⟨SectionStyle.Box, SectionStyle.Box, SectionStyle.Box, none⟩
    State.HunkZero (some ()) [("-a").data] [("+b").data] ' ' (("c").data)
    (by decide) (by decide) (by decide) (by decide) (by decide) (by decide) (by decide)

/-- C1: the claim (and the transition-table comment in the source, which
marks the HunkMinus to HunkMeta transition as flush then emit) requires
the pending buffer to be flushed when a line enters HunkMeta; the code's
hunk-header branch performs no flush, so after a hunk header that follows
a buffered removed line the state is HunkMeta while the removed sequence
is still non-empty, violating the claimed invariant. -/
theorem delta_hunk_meta_entry_keeps_buffer :
    (processLines ⟨SectionStyle.Box, SectionStyle.Box, SectionStyle.Box, none⟩
        (fun e => if e = ("rs").data then some () else none) id initState
        [("diff --git a/x.rs b/x.rs").data, ("@@ -1,1 +1,1 @@").data, ("-old").data,
         ("@@ -2,2 +2,2 @@").data]).map
        (fun r => (r.1.state, r.1.minus_lines, r.1.plus_lines))
      = some (State.HunkMeta, [(" old").data], [])
    ∧ State.HunkMeta ≠ State.HunkMinus ∧ State.HunkMeta ≠ State.HunkPlus :=
  ⟨by rfl, by decide, by decide⟩

/-- C9: whenever the loop over the whole input completes, the driver
performs a final flush: the returned state carries an empty buffer, the
events are the loop's events followed by the flush of whatever was still
pending, and that flush is non-empty whenever something was pending. -/
theorem delta_flushes_at_end_of_stream :
    ∀ (cfg : Config) (find_ctx : Str → Option Unit) (strip : Str → Str)
      (lines : List Str) (st' : DeltaState) (evs' : List Event),
      runDelta cfg find_ctx strip lines = some (st', evs') →
      st'.minus_lines = [] ∧ st'.plus_lines = []
      ∧ ∃ stL evsL, processLines cfg find_ctx strip initState lines = some (stL, evsL)
          ∧ st' = ⟨stL.state, stL.synCtx, [], []⟩
          ∧ evs' = evsL ++ flushEvents stL.minus_lines stL.plus_lines
          ∧ ((stL.minus_lines ≠ [] ∨ stL.plus_lines ≠ []) →
              flushEvents stL.minus_lines stL.plus_lines ≠ []) := by
  intro cfg fc strip lines st' evs' h
  unfold runDelta at h
  rcases hp : processLines cfg fc strip initState lines with _ | r
  · rw [hp] at h
    exact absurd h (by simp)
  · rw [hp] at h
    simp only [Option.some.injEq, Prod.mk.injEq] at h
    obtain ⟨h1, h2⟩ := h
    subst h1
    subst h2
    refine ⟨rfl, rfl, r.1, r.2, by simp [hp], rfl, rfl, ?_⟩
    intro hne hflush
    rw [flushEvents_eq_nil_iff] at hflush
    rcases hne with hne | hne
    · exact hne hflush.1
    · exact hne hflush.2

/-- Witness for the C9 theorem at a stream ending with a buffered removed
line: the final state's buffer is empty. -/
theorem delta_flushes_at_end_witness :
    (⟨State.HunkMinus, some (), [], []⟩ : DeltaState).minus_lines = []
    ∧ (⟨State.HunkMinus, some (), [], []⟩ : DeltaState).plus_lines = [] :=
  ⟨(delta_flushes_at_end_of_stream
      ⟨SectionStyle.Box, SectionStyle.Box, SectionStyle.Box, none⟩
      (fun e => if e = ("rs").data then some () else none) id
      [("diff --git a/x.rs b/x.rs").data, ("@@ -1,1 +1,1 @@").data, ("-old").data]
      ⟨State.HunkMinus, some (), [], []⟩
      [Event.fileHeader (("x.rs").data), Event.hunkHeader [] (("1").data),
       Event.paintBlock [(" old").data]]
      (by rfl)).1,
   (delta_flushes_at_end_of_stream
      ⟨SectionStyle.Box, SectionStyle.Box, SectionStyle.Box, none⟩
      (fun e => if e = ("rs").data then some () else none) id
      [("diff --git a/x.rs b/x.rs").data, ("@@ -1,1 +1,1 @@").data, ("-old").data]
      ⟨State.HunkMinus, some (), [], []⟩
      [Event.fileHeader (("x.rs").data), Event.hunkHeader [] (("1").data),
       Event.paintBlock [(" old").data]]
      (by rfl)).2.1⟩

lemma getLast?_append_singleton {α : Type} (l : List α) (x : α) :
    (l ++ [x]).getLast? = some x := by
  rw [List.getLast?_append_cons]
  rfl

/-- C8, counterexample: a diff header line whose third token is a single
byte is not suppressed under the claimed condition (it is a diff header),
yet its iteration produces no rendered header, no painted line and no
passthrough at all: the metadata slice panics (the none value), so the
claimed exhaustive production disjunction fails on this line. -/
theorem step_panics_on_diff_header_with_short_token :
    step ⟨SectionStyle.Box, SectionStyle.Box, SectionStyle.Box, none⟩ (fun _ => none) id
        initState (("diff --git a b").data) = none
      ∧ (("diff --").data).isPrefixOf (("diff --git a b").data) = true :=
  ⟨by rfl, by decide⟩

/-- C8 (amended): an input line whose iteration completes without a panic
is fully suppressed (no event emitted, buffer left untouched) exactly when
it matches none of the three header prefixes, is not a paintable hunk-body
line, the current state is FileMeta, and the file style is not Plain;
every other completed iteration emits a flush of previously buffered lines
followed by this line's own production: exactly one header block, one
painted line, one verbatim passthrough, or the prepared line appended to
the buffer for a later paired flush.  A panicking iteration (a diff header
with a token shorter than its two-byte slice, or an in-hunk line whose
first character is multi-byte) produces nothing and aborts the stream. -/
theorem step_suppression_characterization :
    ∀ (cfg : Config) (find_ctx : Str → Option Unit) (strip : Str → Str)
      (st : DeltaState) (raw : Str) (st' : DeltaState) (evs : List Event),
      step cfg find_ctx strip st raw = some (st', evs) →
      stepSpec cfg strip st raw st' evs := by
  intro cfg fc strip st raw st' evs h
  simp only [step] at h
  unfold stepSpec
  by_cases hcm : (("commit").data).isPrefixOf (strip raw) = true
  · rw [if_pos hcm] at h
    by_cases hcs : cfg.commit_style ≠ SectionStyle.Plain
    · rw [if_pos hcs] at h
      simp only [Option.some.injEq, Prod.mk.injEq] at h
      obtain ⟨h1, h2⟩ := h
      subst h1
      subst h2
      constructor
      · constructor
        · rintro ⟨he, -, -⟩
          exact absurd he (by simp)
        · rintro ⟨hn, -⟩
          exact absurd hcm hn
      · exact ⟨flushEvents st.minus_lines st.plus_lines, [Event.commitHeader raw],
          rfl, Or.inr rfl, Or.inl rfl⟩
    · rw [if_neg hcs] at h
      simp only [Option.some.injEq, Prod.mk.injEq] at h
      obtain ⟨h1, h2⟩ := h
      subst h1
      subst h2
      constructor
      · constructor
        · rintro ⟨he, -, -⟩
          exact absurd he (by simp)
        · rintro ⟨hn, -⟩
          exact absurd hcm hn
      · exact ⟨flushEvents st.minus_lines st.plus_lines, [Event.passthrough raw],
          rfl, Or.inr rfl, Or.inr (Or.inr (Or.inr (Or.inr (Or.inl rfl))))⟩
  · rw [if_neg hcm] at h
    by_cases hdf : (("diff --").data).isPrefixOf (strip raw) = true
    · rw [if_pos hdf] at h
      rcases hext : get_file_extension_from_diff_line (strip raw) with _ | eo
      · rw [hext] at h
        exact absurd h (by simp)
      · rw [hext] at h
        dsimp only at h
        by_cases hfs : cfg.file_style ≠ SectionStyle.Plain
        · rw [if_pos hfs] at h
          rcases hdesc : get_file_change_description_from_diff_line raw with _ | d
          · rw [hdesc] at h
            exact absurd h (by simp)
          · rw [hdesc] at h
            dsimp only at h
            simp only [Option.some.injEq, Prod.mk.injEq] at h
            obtain ⟨h1, h2⟩ := h
            subst h1
            subst h2
            constructor
            · constructor
              · rintro ⟨he, -, -⟩
                exact absurd he (by simp)
              · rintro ⟨-, hn, -⟩
                exact absurd hdf hn
            · exact ⟨flushEvents st.minus_lines st.plus_lines, [Event.fileHeader d],
                rfl, Or.inr rfl, Or.inr (Or.inl ⟨d, rfl⟩)⟩
        · rw [if_neg hfs] at h
          simp only [Option.some.injEq, Prod.mk.injEq] at h
          obtain ⟨h1, h2⟩ := h
          subst h1
          subst h2
          constructor
          · constructor
            · rintro ⟨he, -, -⟩
              exact absurd he (by simp)
            · rintro ⟨-, hn, -⟩
              exact absurd hdf hn
          · exact ⟨flushEvents st.minus_lines st.plus_lines, [Event.passthrough raw],
              rfl, Or.inr rfl, Or.inr (Or.inr (Or.inr (Or.inr (Or.inl rfl))))⟩
    · rw [if_neg hdf] at h
      by_cases hat : (("@@").data).isPrefixOf (strip raw) = true
      · rw [if_pos hat] at h
        by_cases hhs : cfg.hunk_style ≠ SectionStyle.Plain
        · rw [if_pos hhs] at h
          simp only [Option.some.injEq, Prod.mk.injEq] at h
          obtain ⟨h1, h2⟩ := h
          subst h1
          subst h2
          constructor
          · constructor
            · rintro ⟨he, -, -⟩
              exact absurd he (by simp)
            · rintro ⟨-, -, hn, -⟩
              exact absurd hat hn
          · exact ⟨[], [Event.hunkHeader (parse_hunk_metadata (strip raw)).1
                (parse_hunk_metadata (strip raw)).2],
              rfl, Or.inl rfl, Or.inr (Or.inr (Or.inl ⟨_, _, rfl⟩))⟩
        · rw [if_neg hhs] at h
          simp only [Option.some.injEq, Prod.mk.injEq] at h
          obtain ⟨h1, h2⟩ := h
          subst h1
          subst h2
          constructor
          · constructor
            · rintro ⟨he, -, -⟩
              exact absurd he (by simp)
            · rintro ⟨-, -, hn, -⟩
              exact absurd hat hn
          · exact ⟨[], [Event.passthrough raw],
              rfl, Or.inl rfl, Or.inr (Or.inr (Or.inr (Or.inr (Or.inl rfl))))⟩
      · rw [if_neg hat] at h
        by_cases hib : (st.state.is_in_hunk && st.synCtx.isSome) = true
        · rw [if_pos hib] at h
          have hib2 : st.state.is_in_hunk = true ∧ st.synCtx.isSome = true := by
            simpa using hib
          by_cases hm : (strip raw).head? = some '-'
          · rcases hline : strip raw with _ | ⟨c, t⟩
            · rw [hline] at hm
              simp at hm
            · rw [hline] at hm h
              have hc : c = '-' := by simpa using hm
              subst hc
              rw [paint_hunk_line_minus cfg st t] at h
              simp only [Option.some.injEq, Prod.mk.injEq] at h
              obtain ⟨h1, h2⟩ := h
              subst h1
              subst h2
              constructor
              · constructor
                · by_cases hsp : st.state = State.HunkPlus
                  · rintro ⟨he, hmm, -⟩
                    rw [if_pos hsp] at he hmm
                    rw [flushEvents_eq_nil_iff] at he
                    simp only at hmm
                    rw [← hmm] at he
                    exact absurd he.1 (by simp)
                  · rintro ⟨-, hmm, -⟩
                    rw [if_neg hsp] at hmm
                    simp only at hmm
                    exact (append_singleton_ne st.minus_lines _ hmm).elim
                · rintro ⟨-, -, -, hn, -⟩
                  exact absurd hib2 hn
              · refine ⟨(if st.state = State.HunkPlus
                    then flushEvents st.minus_lines st.plus_lines else []), [],
                  by simp, ?_, ?_⟩
                · by_cases hsp : st.state = State.HunkPlus
                  · rw [if_pos hsp]
                    exact Or.inr rfl
                  · rw [if_neg hsp]
                    exact Or.inl rfl
                · refine Or.inr (Or.inr (Or.inr (Or.inr (Or.inr (Or.inl
                    ⟨rfl, padToWidth cfg.width (' ' :: t), ?_, Or.inl ?_⟩)))))
                  · exact prepare_cons '-' t cfg.width (by decide)
                  · simp only
                    exact getLast?_append_singleton _ _
          · by_cases hp2 : (strip raw).head? = some '+'
            · rcases hline : strip raw with _ | ⟨c, t⟩
              · rw [hline] at hp2
                simp at hp2
              · rw [hline] at hp2 h
                have hc : c = '+' := by simpa using hp2
                subst hc
                rw [paint_hunk_line_plus cfg st t] at h
                simp only [Option.some.injEq, Prod.mk.injEq] at h
                obtain ⟨h1, h2⟩ := h
                subst h1
                subst h2
                constructor
                · constructor
                  · rintro ⟨-, -, hpp⟩
                    simp only at hpp
                    exact (append_singleton_ne st.plus_lines _ hpp).elim
                  · rintro ⟨-, -, -, hn, -⟩
                    exact absurd hib2 hn
                · refine ⟨[], [], rfl, Or.inl rfl, ?_⟩
                  refine Or.inr (Or.inr (Or.inr (Or.inr (Or.inr (Or.inl
                    ⟨rfl, padToWidth cfg.width (' ' :: t), ?_, Or.inr ?_⟩)))))
                  · exact prepare_cons '+' t cfg.width (by decide)
                  · simp only
                    exact getLast?_append_singleton _ _
            · simp only [paint_hunk_line, if_neg hm, if_neg hp2] at h
              rcases hprep : prepare (strip raw) cfg.width with _ | pl
              · rw [hprep] at h
                exact absurd h (by simp)
              · rw [hprep] at h
                dsimp only at h
                simp only [Option.some.injEq, Prod.mk.injEq] at h
                obtain ⟨h1, h2⟩ := h
                subst h1
                subst h2
                constructor
                · constructor
                  · rintro ⟨he, -, -⟩
                    exact absurd he (by simp)
                  · rintro ⟨-, -, -, hn, -⟩
                    exact absurd hib2 hn
                · exact ⟨flushEvents st.minus_lines st.plus_lines, [Event.paintLine pl],
                    rfl, Or.inr rfl, Or.inr (Or.inr (Or.inr (Or.inl ⟨pl, rfl⟩)))⟩
        · rw [if_neg hib] at h
          by_cases hsup : st.state = State.FileMeta ∧ cfg.file_style ≠ SectionStyle.Plain
          · rw [if_pos hsup] at h
            simp only [Option.some.injEq, Prod.mk.injEq] at h
            obtain ⟨h1, h2⟩ := h
            subst h1
            subst h2
            constructor
            · constructor
              · intro h0
                refine ⟨hcm, hdf, hat, ?_, hsup.1, hsup.2⟩
                intro hand
                apply hib
                rw [hand.1, hand.2]
                rfl
              · intro h0
                exact ⟨rfl, rfl, rfl⟩
            · exact ⟨[], [], rfl, Or.inl rfl,
                Or.inr (Or.inr (Or.inr (Or.inr (Or.inr (Or.inr ⟨rfl, rfl, rfl, rfl⟩)))))⟩
          · rw [if_neg hsup] at h
            simp only [Option.some.injEq, Prod.mk.injEq] at h
            obtain ⟨h1, h2⟩ := h
            subst h1
            subst h2
            constructor
            · constructor
              · rintro ⟨he, -, -⟩
                exact absurd he (by simp)
              · rintro ⟨-, -, -, -, hf1, hf2⟩
                exact (hsup ⟨hf1, hf2⟩).elim
            · exact ⟨[], [Event.passthrough raw], rfl, Or.inl rfl,
                Or.inr (Or.inr (Or.inr (Or.inr (Or.inl rfl))))⟩

/-- Witness for the C8 theorem: a metadata boilerplate line in FileMeta
state with a non-Plain file style is suppressed. -/
theorem step_suppression_characterization_witness :
    stepSpec ⟨SectionStyle.Box, SectionStyle.Box, SectionStyle.Box, none⟩ id
      ⟨State.FileMeta, none, [], []⟩ (("index 1").data)
      ⟨State.FileMeta, none, [], []⟩ [] :=
  step_suppression_characterization
    ⟨SectionStyle.Box, SectionStyle.Box, SectionStyle.Box, none⟩ (fun _ => none) id
    ⟨State.FileMeta, none, [], []⟩ (("index 1").data)
    ⟨State.FileMeta, none, [], []⟩ [] (by rfl)

end Delta
